import Mathlib

/-!
Verification development for the Rubik's-cube animation controller in
`src/components/RubiksCube.tsx`.

The TypeScript component is shallowly embedded:
* move tokens (JS strings such as `R`, `R'`, `U2`) become `List Char`;
* the visual cube (27 cubies, integer grid positions, world orientation
  snapped to quarter turns) becomes `CubeState`, a list of `Cubie`s with
  integer position vectors and an integer orientation frame;
* the logical cube (the external `cubejs` instance, which only supplies the
  standard cube-group action `move(notation)`) is modelled from the spec by
  the same permutation action `applyMove` that the visual engine realises;
* JS numbers become `ℚ` (durations, checkpoint interpolation) and `ℤ`
  (array contents), with `Math.round x = ⌊x + 1/2⌋`.
-/

/-- The apostrophe character used by prime move tokens (`"'"` in the source). -/
def primeChar : Char := Char.ofNat 39

/-- A move token: the character list of the JS string (e.g. `['R']`, `['U','2']`). -/
abbrev Move := List Char

/-- `invertMove` from `RubiksCube.tsx` lines 121-125: if the token contains a
prime, drop the (first) prime; else if it contains `2`, return it unchanged;
else append a prime. -/
def invertMove (m : Move) : Move :=
  if m.contains primeChar then m.erase primeChar
  else if m.contains '2' then m
  else m ++ [primeChar]

/-- `[...moves].reverse().map(invertMove)` as used for reverse scrambles. -/
def reverseInvert (ms : List Move) : List Move :=
  ms.reverse.map invertMove

/-- The three rotation axes of the scene (`'x' | 'y' | 'z'`). -/
inductive Axis where
  | x
  | y
  | z
deriving DecidableEq

/-- Integer 3-vector: a cubie position or an orientation-frame column. -/
abbrev Vec3 := ℤ × ℤ × ℤ

/-- Coordinate of a vector along an axis (`cubie.position[axis]`). -/
def coord : Axis → Vec3 → ℤ
  | .x, (vx, _, _) => vx
  | .y, (_, vy, _) => vy
  | .z, (_, _, vz) => vz

/-- Right-handed rotation of an integer vector by `d * 90°` (`d = ±1`) about a
coordinate axis.  This is the exact net effect of the pivot rotation plus the
integer/quarter-turn snapping in `rotateSlice` (lines 150-164). -/
def rotVec (a : Axis) (d : ℤ) (v : Vec3) : Vec3 :=
  match a, v with
  | .x, (vx, vy, vz) => (vx, -d * vz, d * vy)
  | .y, (vx, vy, vz) => (d * vz, vy, -d * vx)
  | .z, (vx, vy, vz) => (-d * vy, d * vx, vz)

/-- One visual cubie: its grid position and the images of its three local
axes (the orientation accumulated by slice rotations). -/
structure Cubie where
  pos : Vec3
  fx : Vec3
  fy : Vec3
  fz : Vec3
deriving DecidableEq

/-- The whole 27-piece cube (also used as the permutation model of the
logical cube, see module doc). -/
abbrev CubeState := List Cubie

/-- The solved cube: positions `{-1,0,1}^3` in the construction order of the
component's `initialPositions` loop (x outer, then y, then z), identity
orientation. -/
def solvedCube : CubeState :=
  ([-1, 0, 1] : List ℤ).flatMap fun x =>
    ([-1, 0, 1] : List ℤ).flatMap fun y =>
      ([-1, 0, 1] : List ℤ).map fun z =>
        ⟨(x, y, z), (1, 0, 0), (0, 1, 0), (0, 0, 1)⟩

/-- Effect of one slice rotation on one cubie: cubies whose coordinate along
`a` equals `idx` are rotated (position and frame), the rest are untouched
(`rotateSlice`'s selection `Math.abs(pos - index) < 0.1`, exact on integers). -/
def sliceStep (a : Axis) (idx d : ℤ) (c : Cubie) : Cubie :=
  if coord a c.pos = idx then
    ⟨rotVec a d c.pos, rotVec a d c.fx, rotVec a d c.fy, rotVec a d c.fz⟩
  else c

/-- `rotateSlice` (duration-0 / end-of-animation net effect) on the cube. -/
def rotateSlice (a : Axis) (idx d : ℤ) (s : CubeState) : CubeState :=
  s.map (sliceStep a idx d)

/-- The `switch (face)` table of `applyMove` (lines 214-221): axis, slice
index and base direction; the default branch keeps the initial values
`('y', 0, 1)`. -/
def faceParams (face : Char) : Axis × ℤ × ℤ :=
  if face = 'R' then (.x, 1, -1)
  else if face = 'L' then (.x, -1, 1)
  else if face = 'U' then (.y, 1, -1)
  else if face = 'D' then (.y, -1, 1)
  else if face = 'F' then (.z, 1, -1)
  else if face = 'B' then (.z, -1, 1)
  else (.y, 0, 1)

/-- `applyMove` (lines 202-230) as a pure action on a cube state: parse the
token (`move[0]`, `includes("'")`, `includes("2")`), flip the direction for a
prime, rotate the slice twice for a double. -/
def applyMove (m : Move) (s : CubeState) : CubeState :=
  let face := m.headD 'A'
  let isPrime := m.contains primeChar
  let isDouble := m.contains '2'
  let p := faceParams face
  let dir := if isPrime then -p.2.2 else p.2.2
  if isDouble then rotateSlice p.1 p.2.1 dir (rotateSlice p.1 p.2.1 dir s)
  else rotateSlice p.1 p.2.1 dir s

/-- Sequential application of a move list (each `await applyMove(move, …)`). -/
def applyMoves (ms : List Move) (s : CubeState) : CubeState :=
  ms.foldl (fun t m => applyMove m t) s

/-- The 18 well-formed move tokens: face letter from `{U,D,L,R,F,B}` with
modifier `∅`, prime, or `2`. -/
def validMoves : List Move :=
  [['U'], ['U', primeChar], ['U', '2'],
   ['D'], ['D', primeChar], ['D', '2'],
   ['L'], ['L', primeChar], ['L', '2'],
   ['R'], ['R', primeChar], ['R', '2'],
   ['F'], ['F', primeChar], ['F', '2'],
   ['B'], ['B', primeChar], ['B', '2']]

/-- A token is valid when it is one of the 18 well-formed tokens. -/
def ValidMove (m : Move) : Prop := m ∈ validMoves

instance : DecidablePred ValidMove := fun m => by
  unfold ValidMove
  infer_instance

lemma coord_rotVec (a : Axis) (d : ℤ) (v : Vec3) :
    coord a (rotVec a d v) = coord a v := by
  cases a <;> rcases v with ⟨x, y, z⟩ <;> simp [coord, rotVec]

lemma rotVec_cancel (a : Axis) (d : ℤ) (hd : d = 1 ∨ d = -1) (v : Vec3) :
    rotVec a (-d) (rotVec a d v) = v := by
  rcases hd with rfl | rfl <;> cases a <;> rcases v with ⟨x, y, z⟩ <;>
    simp [rotVec]

lemma rotVec_four (a : Axis) (d : ℤ) (hd : d = 1 ∨ d = -1) (v : Vec3) :
    rotVec a d (rotVec a d (rotVec a d (rotVec a d v))) = v := by
  rcases hd with rfl | rfl <;> cases a <;> rcases v with ⟨x, y, z⟩ <;>
    simp [rotVec]

lemma sliceStep_cancel (a : Axis) (idx d : ℤ) (hd : d = 1 ∨ d = -1)
    (c : Cubie) : sliceStep a idx (-d) (sliceStep a idx d c) = c := by
  unfold sliceStep
  by_cases h : coord a c.pos = idx
  · simp [h, coord_rotVec, rotVec_cancel a d hd]
  · simp [h]

lemma sliceStep_four (a : Axis) (idx d : ℤ) (hd : d = 1 ∨ d = -1)
    (c : Cubie) :
    sliceStep a idx d (sliceStep a idx d (sliceStep a idx d
      (sliceStep a idx d c))) = c := by
  unfold sliceStep
  by_cases h : coord a c.pos = idx
  · simp [h, coord_rotVec, rotVec_four a d hd]
  · simp [h]

lemma rotateSlice_cancel (a : Axis) (idx d e : ℤ) (hd : d = 1 ∨ d = -1)
    (he : e = -d) (s : CubeState) :
    rotateSlice a idx e (rotateSlice a idx d s) = s := by
  subst he
  induction s with
  | nil => rfl
  | cons c cs ih =>
      simp only [rotateSlice, List.map_cons] at *
      exact congrArg₂ _ (sliceStep_cancel a idx d hd c) ih

lemma rotateSlice_four (a : Axis) (idx d : ℤ) (hd : d = 1 ∨ d = -1)
    (s : CubeState) :
    rotateSlice a idx d (rotateSlice a idx d (rotateSlice a idx d
      (rotateSlice a idx d s))) = s := by
  induction s with
  | nil => rfl
  | cons c cs ih =>
      simp only [rotateSlice, List.map_cons] at *
      exact congrArg₂ _ (sliceStep_four a idx d hd c) ih

/-- Applying a valid move and then its `invertMove` restores any cube state. -/
lemma applyMove_invert (m : Move) (hm : ValidMove m) (s : CubeState) :
    applyMove (invertMove m) (applyMove m s) = s := by
  have hm' : m ∈ validMoves := hm
  fin_cases hm'
  · exact rotateSlice_cancel .y 1 (-1) 1 (Or.inr rfl) rfl s
  · exact rotateSlice_cancel .y 1 1 (-1) (Or.inl rfl) rfl s
  · exact rotateSlice_four .y 1 (-1) (Or.inr rfl) s
  · exact rotateSlice_cancel .y (-1) 1 (-1) (Or.inl rfl) rfl s
  · exact rotateSlice_cancel .y (-1) (-1) 1 (Or.inr rfl) rfl s
  · exact rotateSlice_four .y (-1) 1 (Or.inl rfl) s
  · exact rotateSlice_cancel .x (-1) 1 (-1) (Or.inl rfl) rfl s
  · exact rotateSlice_cancel .x (-1) (-1) 1 (Or.inr rfl) rfl s
  · exact rotateSlice_four .x (-1) 1 (Or.inl rfl) s
  · exact rotateSlice_cancel .x 1 (-1) 1 (Or.inr rfl) rfl s
  · exact rotateSlice_cancel .x 1 1 (-1) (Or.inl rfl) rfl s
  · exact rotateSlice_four .x 1 (-1) (Or.inr rfl) s
  · exact rotateSlice_cancel .z 1 (-1) 1 (Or.inr rfl) rfl s
  · exact rotateSlice_cancel .z 1 1 (-1) (Or.inl rfl) rfl s
  · exact rotateSlice_four .z 1 (-1) (Or.inr rfl) s
  · exact rotateSlice_cancel .z (-1) 1 (-1) (Or.inl rfl) rfl s
  · exact rotateSlice_cancel .z (-1) (-1) 1 (Or.inr rfl) rfl s
  · exact rotateSlice_four .z (-1) 1 (Or.inl rfl) s

lemma applyMoves_append (ms₁ ms₂ : List Move) (s : CubeState) :
    applyMoves (ms₁ ++ ms₂) s = applyMoves ms₂ (applyMoves ms₁ s) := by
  simp [applyMoves, List.foldl_append]

/-- Playing a move list and then its reversed-and-inverted list is a no-op. -/
lemma applyMoves_reverseInvert (ms : List Move)
    (hv : ∀ m ∈ ms, ValidMove m) (s : CubeState) :
    applyMoves (reverseInvert ms) (applyMoves ms s) = s := by
  induction ms generalizing s with
  | nil => rfl
  | cons m rest ih =>
      have hm : ValidMove m := hv m (by simp)
      have hrest : ∀ x ∈ rest, ValidMove x := fun x hx => hv x (by simp [hx])
      have h1 : reverseInvert (m :: rest)
          = reverseInvert rest ++ [invertMove m] := by
        simp [reverseInvert]
      have h2 : applyMoves (m :: rest) s = applyMoves rest (applyMove m s) := rfl
      rw [h1, h2, applyMoves_append, ih hrest (applyMove m s)]
      exact applyMove_invert m hm s

/-- JS `Math.round`: round half toward positive infinity. -/
def jsRound (q : ℚ) : ℤ := ⌊q + 1 / 2⌋

/-- JS `Array.prototype.slice(a, b)` for integer arguments: negative indices
count from the end, then both are clamped to `[0, length]`. -/
def jsSlice {α : Type} (l : List α) (a b : ℤ) : List α :=
  let n : ℤ := l.length
  let a' := if a < 0 then max 0 (a + n) else min a n
  let b' := if b < 0 then max 0 (b + n) else min b n
  (l.take b'.toNat).drop a'.toNat

/-- `const preWipMoves = Math.max(0, totalMoves - 3)` (line 249). -/
def preWipMoves (T : ℕ) : ℤ := max 0 ((T : ℤ) - 3)

/-- `const movesPerInterval = preWipMoves / numIntermediateSteps` (line 264),
with `numIntermediateSteps = numExperiences - 2` as a JS number. -/
def movesPerInterval (T N : ℕ) : ℚ := (preWipMoves T : ℚ) / ((N : ℚ) - 2)

/-- The checkpoint array after the three direct writes of lines 239-251:
all zeros, then `checkpoints[0] = 0`, then `checkpoints[N-1] = T`. -/
def baseCheckpoints (T N : ℕ) : List ℤ :=
  ((List.replicate N (0 : ℤ)).set 0 0).set (N - 1) (T : ℤ)

/-- …then `checkpoints[N-2] = preWipMoves` when `numExperiences > 1`
(lines 250-252). -/
def withPreCheckpoints (T N : ℕ) : List ℤ :=
  if 1 < N then (baseCheckpoints T N).set (N - 2) (preWipMoves T)
  else baseCheckpoints T N

/-- `moveCheckpoints` (lines 234-273), as a function of the scramble length
`T = solutionMoves.length` and the milestone count `N = experiences.length`:
returns `[]` when `T = 0`; otherwise performs the direct writes and, when
`numIntermediateSteps > 1`, the interpolation loop
`for (i = 1; i < N-2; i++) checkpoints[i] = Math.round(i * movesPerInterval)`. -/
def moveCheckpoints (T N : ℕ) : List ℤ :=
  if T = 0 then []
  else if 1 < N - 2 then
    (List.range' 1 (N - 3)).foldl
      (fun c i => c.set i (jsRound ((i : ℚ) * movesPerInterval T N)))
      (withPreCheckpoints T N)
  else withPreCheckpoints T N

/-- Entry `i` of the checkpoint table (`checkpoints[i]`, `0` when absent,
matching the `checkpoints[i] || 0` reads in the planner). -/
def ckpt (T N i : ℕ) : ℤ := (moveCheckpoints T N).getD i 0

lemma getD_set_self (l : List ℤ) (i : ℕ) (x : ℤ) (h : i < l.length) :
    (l.set i x).getD i 0 = x := by
  induction l generalizing i with
  | nil => simp at h
  | cons c cs ih =>
      cases i with
      | zero => simp
      | succ j =>
          simp only [List.set_cons_succ, List.getD_cons_succ]
          exact ih j (by simpa using h)

lemma getD_set_ne (l : List ℤ) (i j : ℕ) (x : ℤ) (h : i ≠ j) :
    (l.set i x).getD j 0 = l.getD j 0 := by
  induction l generalizing i j with
  | nil => simp
  | cons c cs ih =>
      cases i with
      | zero =>
          cases j with
          | zero => exact absurd rfl h
          | succ k => simp
      | succ i' =>
          cases j with
          | zero => simp
          | succ k =>
              simp only [List.set_cons_succ, List.getD_cons_succ]
              exact ih i' k (fun hc => h (by simp [hc]))

lemma getD_replicate (N j : ℕ) : (List.replicate N (0 : ℤ)).getD j 0 = 0 := by
  induction N generalizing j with
  | zero => simp
  | succ n ih =>
      cases j with
      | zero => simp
      | succ k =>
          rw [List.replicate_succ, List.getD_cons_succ]
          exact ih k

lemma getD_foldl_set (f : ℕ → ℤ) :
    ∀ (cnt : ℕ) (l : List ℤ) (s j : ℕ),
      ((List.range' s cnt).foldl (fun c i => c.set i (f i)) l).getD j 0 =
      if s ≤ j ∧ j < s + cnt ∧ j < l.length then f j else l.getD j 0 := by
  intro cnt
  induction cnt with
  | zero =>
      intro l s j
      simp only [List.range'_zero, List.foldl_nil]
      rw [if_neg (by omega)]
  | succ n ih =>
      intro l s j
      rw [List.range'_succ, List.foldl_cons, ih (l.set s (f s)) (s + 1) j]
      simp only [List.length_set]
      rcases Nat.lt_or_ge j l.length with hl | hl
      · by_cases hj : j = s
        · subst hj
          rw [if_neg (by omega), getD_set_self l j (f j) hl, if_pos (by omega)]
        · have hne : (l.set s (f s)).getD j 0 = l.getD j 0 :=
            getD_set_ne l s j (f s) (fun h => hj h.symm)
          by_cases hc : s + 1 ≤ j ∧ j < s + 1 + n
          · rw [if_pos ⟨hc.1, hc.2, hl⟩, if_pos (by omega)]
          · rw [if_neg (by omega), hne, if_neg (by omega)]
      · have h0 : (l.set s (f s)).getD j 0 = 0 :=
          List.getD_eq_default _ _ (by simp only [List.length_set]; exact hl)
        have h1 : l.getD j 0 = 0 := List.getD_eq_default _ _ hl
        rw [if_neg (by omega), h0, if_neg (by omega), h1]

lemma foldl_set_length (f : ℕ → ℤ) :
    ∀ (is : List ℕ) (l : List ℤ),
      (is.foldl (fun c i => c.set i (f i)) l).length = l.length := by
  intro is
  induction is with
  | nil => intro l; rfl
  | cons i rest ih =>
      intro l
      simp only [List.foldl_cons]
      rw [ih (l.set i (f i)), List.length_set]

lemma baseCheckpoints_length (T N : ℕ) : (baseCheckpoints T N).length = N := by
  simp [baseCheckpoints]

lemma withPreCheckpoints_length (T N : ℕ) :
    (withPreCheckpoints T N).length = N := by
  unfold withPreCheckpoints
  split <;> simp [baseCheckpoints]

lemma moveCheckpoints_length (T N : ℕ) (hT : 1 ≤ T) :
    (moveCheckpoints T N).length = N := by
  unfold moveCheckpoints
  rw [if_neg (by omega)]
  split
  · rw [foldl_set_length, withPreCheckpoints_length]
  · exact withPreCheckpoints_length T N

lemma baseCheckpoints_getD (T N j : ℕ) :
    (baseCheckpoints T N).getD j 0 = if j = N - 1 ∧ j < N then (T : ℤ) else 0 := by
  unfold baseCheckpoints
  by_cases h : j = N - 1 ∧ j < N
  · obtain ⟨rfl, hlt⟩ := h
    rw [getD_set_self _ _ _ (by simpa using hlt), if_pos ⟨rfl, hlt⟩]
  · rw [if_neg h]
    by_cases hjN : j < N
    · have hne : j ≠ N - 1 := fun hc => h ⟨hc, hjN⟩
      rw [getD_set_ne _ _ _ _ (fun hc => hne hc.symm)]
      by_cases hj0 : j = 0
      · subst hj0
        rw [getD_set_self _ _ _ (by simpa using hjN)]
      · rw [getD_set_ne _ _ _ _ (fun hc => hj0 hc.symm), getD_replicate]
    · have hlen : N ≤ j := by omega
      apply List.getD_eq_default
      simp [hlen]

lemma withPreCheckpoints_getD (T N j : ℕ) (hN : 3 ≤ N) :
    (withPreCheckpoints T N).getD j 0 =
      if j = N - 2 then preWipMoves T
      else if j = N - 1 then (T : ℤ) else 0 := by
  unfold withPreCheckpoints
  rw [if_pos (by omega)]
  by_cases h : j = N - 2
  · subst h
    rw [getD_set_self _ _ _ (by rw [baseCheckpoints_length]; omega), if_pos rfl]
  · rw [getD_set_ne _ _ _ _ (fun hc => h hc.symm), baseCheckpoints_getD, if_neg h]
    by_cases h1 : j = N - 1
    · rw [if_pos ⟨h1, by omega⟩, if_pos h1]
    · rw [if_neg (fun hc => h1 hc.1), if_neg h1]

/-- Entry-wise description of the checkpoint table for `N ≥ 3`, `T ≥ 1`. -/
lemma ckpt_spec (T N : ℕ) (hT : 1 ≤ T) (hN : 3 ≤ N) (j : ℕ) :
    ckpt T N j =
      if j = N - 1 then (T : ℤ)
      else if j = N - 2 then preWipMoves T
      else if 1 ≤ j ∧ j ≤ N - 3 then jsRound ((j : ℚ) * movesPerInterval T N)
      else 0 := by
  unfold ckpt moveCheckpoints
  rw [if_neg (by omega)]
  by_cases hN4 : 1 < N - 2
  · rw [if_pos hN4,
      getD_foldl_set (fun i => jsRound ((i : ℚ) * movesPerInterval T N)) (N - 3),
      withPreCheckpoints_length, withPreCheckpoints_getD T N j hN]
    split_ifs <;> first | rfl | omega
  · have hN3 : N = 3 := by omega
    subst hN3
    rw [if_neg hN4, withPreCheckpoints_getD T 3 j hN]
    split_ifs <;> first | rfl | omega

lemma jsRound_intCast (p : ℤ) : jsRound ((p : ℤ) : ℚ) = p := by
  unfold jsRound
  rw [add_comm, Int.floor_add_int]
  norm_num

lemma jsRound_mono {q r : ℚ} (h : q ≤ r) : jsRound q ≤ jsRound r :=
  Int.floor_le_floor (by linarith)

lemma movesPerInterval_nonneg (T N : ℕ) (hN : 3 ≤ N) :
    0 ≤ movesPerInterval T N := by
  unfold movesPerInterval
  apply div_nonneg
  · exact_mod_cast le_max_left 0 ((T : ℤ) - 3)
  · have h3 : (3 : ℚ) ≤ (N : ℚ) := by exact_mod_cast hN
    linarith

/-- Every checkpoint entry up to `N-2` (also the endpoints `0` and `N-2`)
agrees with the rounded interpolation formula. -/
lemma ckpt_interp (T N : ℕ) (hT : 1 ≤ T) (hN : 3 ≤ N) (j : ℕ)
    (hj : j ≤ N - 2) :
    ckpt T N j = jsRound ((j : ℚ) * movesPerInterval T N) := by
  rw [ckpt_spec T N hT hN j]
  by_cases h2 : j = N - 2
  · rw [if_neg (by omega), if_pos h2]
    subst h2
    have hne : ((N : ℚ) - 2) ≠ 0 := by
      have h3 : (3 : ℚ) ≤ (N : ℚ) := by exact_mod_cast hN
      intro hc
      rw [sub_eq_zero] at hc
      linarith
    have hcast : (((N - 2 : ℕ) : ℚ)) = (N : ℚ) - 2 := by
      rw [Nat.cast_sub (by omega : 2 ≤ N)]
      norm_num
    have hmul : (((N - 2 : ℕ) : ℚ)) * movesPerInterval T N
        = ((preWipMoves T : ℤ) : ℚ) := by
      unfold movesPerInterval
      rw [hcast]
      field_simp
    rw [hmul, jsRound_intCast]
  · by_cases h1 : 1 ≤ j
    · rw [if_neg (by omega), if_neg h2, if_pos ⟨h1, by omega⟩]
    · have hj0 : j = 0 := by omega
      subst hj0
      rw [if_neg (by omega), if_neg h2, if_neg (by omega)]
      have : ((0 : ℕ) : ℚ) * movesPerInterval T N = 0 := by norm_num
      rw [this]
      unfold jsRound
      norm_num

lemma preWipMoves_le (T : ℕ) : preWipMoves T ≤ (T : ℤ) := by
  unfold preWipMoves
  omega

/-- The checkpoint table is non-decreasing (`N ≥ 3`, `T ≥ 1`). -/
lemma ckpt_mono (T N : ℕ) (hT : 1 ≤ T) (hN : 3 ≤ N) (i j : ℕ)
    (hij : i ≤ j) (hj : j < N) : ckpt T N i ≤ ckpt T N j := by
  have hmpi := movesPerInterval_nonneg T N hN
  by_cases hjN : j ≤ N - 2
  · rw [ckpt_interp T N hT hN i (by omega), ckpt_interp T N hT hN j hjN]
    apply jsRound_mono
    have hc : (i : ℚ) ≤ (j : ℚ) := by exact_mod_cast hij
    exact mul_le_mul_of_nonneg_right hc hmpi
  · have hj1 : j = N - 1 := by omega
    subst hj1
    by_cases hiN : i = N - 1
    · rw [hiN]
    · have hi2 : i ≤ N - 2 := by omega
      rw [ckpt_interp T N hT hN i hi2, ckpt_spec T N hT hN (N - 1), if_pos rfl]
      have h1 : jsRound ((i : ℚ) * movesPerInterval T N)
          ≤ jsRound (((N - 2 : ℕ) : ℚ) * movesPerInterval T N) := by
        apply jsRound_mono
        have hc : (i : ℚ) ≤ ((N - 2 : ℕ) : ℚ) := by exact_mod_cast hi2
        exact mul_le_mul_of_nonneg_right hc hmpi
      have h2 : jsRound (((N - 2 : ℕ) : ℚ) * movesPerInterval T N)
          = preWipMoves T := by
        rw [← ckpt_interp T N hT hN (N - 2) le_rfl,
          ckpt_spec T N hT hN (N - 2), if_neg (by omega), if_pos rfl]
      rw [h2] at h1
      exact le_trans h1 (preWipMoves_le T)

/-- C2 counterexample: at `T = 0` (empty scramble) with `N = 3` milestones the
planner returns `[]`, so the claimed table of length `N` does not exist. -/
theorem checkpointTable_length_fails_at_T0 :
    (moveCheckpoints 0 3).length ≠ 3 := by decide

/-- C2 (amended to `T ≥ 1`): for `N ≥ 3` milestones and a non-empty scramble
the table has length `N`, `checkpoints[0] = 0`, `checkpoints[N-1] = T`,
`checkpoints[N-2] = max 0 (T-3)`, each entry `1 ≤ i ≤ N-3` is
`round(i * max 0 (T-3) / (N-2))`, and the sequence is non-decreasing. -/
theorem checkpointTable_invariants (N T : ℕ) (hN : 3 ≤ N) (hT : 1 ≤ T) :
    (moveCheckpoints T N).length = N ∧
    ckpt T N 0 = 0 ∧
    ckpt T N (N - 1) = (T : ℤ) ∧
    ckpt T N (N - 2) = max 0 ((T : ℤ) - 3) ∧
    (∀ i, 1 ≤ i → i ≤ N - 3 →
      ckpt T N i = jsRound ((i : ℚ) * ((max 0 ((T : ℤ) - 3) : ℤ) : ℚ)
        / ((N : ℚ) - 2))) ∧
    (∀ i j, i ≤ j → j < N → ckpt T N i ≤ ckpt T N j) := by
  refine ⟨moveCheckpoints_length T N hT, ?_, ?_, ?_, ?_, ?_⟩
  · rw [ckpt_spec T N hT hN 0, if_neg (by omega), if_neg (by omega),
      if_neg (by omega)]
  · rw [ckpt_spec T N hT hN (N - 1), if_pos rfl]
  · rw [ckpt_spec T N hT hN (N - 2), if_neg (by omega), if_pos rfl]
    rfl
  · intro i h1 h3
    rw [ckpt_spec T N hT hN i, if_neg (by omega), if_neg (by omega),
      if_pos ⟨h1, h3⟩]
    unfold movesPerInterval preWipMoves
    rw [mul_div_assoc]
  · exact ckpt_mono T N hT hN

/-- C2 witness: the invariants instantiated at `N = 5`, `T = 30`. -/
theorem checkpointTable_invariants_witness :
    (moveCheckpoints 30 5).length = 5 ∧
    ckpt 30 5 0 = 0 ∧
    ckpt 30 5 (5 - 1) = (30 : ℤ) ∧
    ckpt 30 5 (5 - 2) = max 0 ((30 : ℤ) - 3) ∧
    (∀ i, 1 ≤ i → i ≤ 5 - 3 →
      ckpt 30 5 i = jsRound ((i : ℚ) * ((max 0 ((30 : ℤ) - 3) : ℤ) : ℚ)
        / ((5 : ℚ) - 2))) ∧
    (∀ i j, i ≤ j → j < 5 → ckpt 30 5 i ≤ ckpt 30 5 j) :=
  checkpointTable_invariants 5 30 (by norm_num) (by norm_num)

/-- C4 counterexample: at `N = 2`, `T = 4` the table is `[1, 4]`, because the
`checkpoints[N-2] = max 0 (T-3)` write lands on index 0 and overwrites the 0;
the claimed `[0, 4]` is wrong. -/
theorem checkpointTable_N2_not_zero_T : moveCheckpoints 4 2 ≠ [0, 4] := by
  decide

/-- C4 (amended): for `N = 2` and `T ≥ 1` the table is
`[max 0 (T-3), T]` — index 0 holds the pre-final count, not 0. -/
theorem checkpointTable_N2 (T : ℕ) (hT : 1 ≤ T) :
    moveCheckpoints T 2 = [max 0 ((T : ℤ) - 3), (T : ℤ)] := by
  unfold moveCheckpoints withPreCheckpoints baseCheckpoints
  rw [if_neg (by omega)]
  rfl

/-- C4 witness: at `T = 6` the table is `[3, 6]`. -/
theorem checkpointTable_N2_witness :
    1 ≤ 6 ∧ moveCheckpoints 6 2 = [max 0 ((6 : ℤ) - 3), (6 : ℤ)] :=
  ⟨by norm_num, checkpointTable_N2 6 (by norm_num)⟩

/-- `getMovesForTransition` (lines 338-368): empty-scramble guard, the
last-to-first full reverse at duration `0.02`, forward slice at `0.25`
(the redundant final-step check also yields `0.25`), backward slice
reversed-and-inverted at `0.25`, else no moves at the default `0.3`.
`ckpt` models the `moveCheckpoints[step] || 0` reads. -/
def getMovesForTransition (sm : List Move) (N : ℕ) (fromStep toStep : ℕ) :
    List Move × ℚ :=
  if sm.length = 0 then ([], 3 / 10)
  else if fromStep = N - 1 ∧ toStep = 0 then (reverseInvert sm, 1 / 50)
  else if fromStep < toStep then
    if toStep = N - 1 then
      (jsSlice sm (ckpt sm.length N fromStep) (ckpt sm.length N toStep), 1 / 4)
    else
      (jsSlice sm (ckpt sm.length N fromStep) (ckpt sm.length N toStep), 1 / 4)
  else if toStep < fromStep then
    (reverseInvert
      (jsSlice sm (ckpt sm.length N toStep) (ckpt sm.length N fromStep)), 1 / 4)
  else ([], 3 / 10)

lemma gMFT_special (sm : List Move) (N fromStep toStep : ℕ)
    (hlen : sm.length ≠ 0) (h : fromStep = N - 1 ∧ toStep = 0) :
    getMovesForTransition sm N fromStep toStep = (reverseInvert sm, 1 / 50) := by
  unfold getMovesForTransition
  rw [if_neg hlen, if_pos h]

lemma gMFT_forward (sm : List Move) (N fromStep toStep : ℕ)
    (hlen : sm.length ≠ 0) (h : fromStep < toStep) :
    getMovesForTransition sm N fromStep toStep =
      (jsSlice sm (ckpt sm.length N fromStep) (ckpt sm.length N toStep),
        1 / 4) := by
  unfold getMovesForTransition
  rw [if_neg hlen, if_neg (by omega : ¬(fromStep = N - 1 ∧ toStep = 0)),
    if_pos h]
  split <;> rfl

lemma gMFT_backward (sm : List Move) (N fromStep toStep : ℕ)
    (hlen : sm.length ≠ 0) (h : toStep < fromStep)
    (hns : ¬(fromStep = N - 1 ∧ toStep = 0)) :
    getMovesForTransition sm N fromStep toStep =
      (reverseInvert
        (jsSlice sm (ckpt sm.length N toStep) (ckpt sm.length N fromStep)),
        1 / 4) := by
  unfold getMovesForTransition
  rw [if_neg hlen, if_neg hns, if_neg (by omega : ¬ fromStep < toStep),
    if_pos h]

lemma gMFT_same (sm : List Move) (N fromStep toStep : ℕ)
    (hlen : sm.length ≠ 0) (h : toStep = fromStep)
    (hns : ¬(fromStep = N - 1 ∧ toStep = 0)) :
    getMovesForTransition sm N fromStep toStep = ([], 3 / 10) := by
  unfold getMovesForTransition
  rw [if_neg hlen, if_neg hns, if_neg (by omega : ¬ fromStep < toStep),
    if_neg (by omega : ¬ toStep < fromStep)]

/-- C5: the transition planner's four cases, for in-range indices over a
non-empty scramble: (1) last-to-first returns the full reverse scramble at
the near-instant duration 0.02 s; (2) forward returns the checkpoint slice;
(3) backward (other than case 1) returns the slice reversed with each move
inverted; (4) equal indices (other than case 1) return no moves. -/
theorem getMovesForTransition_cases (sm : List Move) (N fromStep toStep : ℕ)
    (hsm : sm ≠ []) (hf : fromStep < N) (ht : toStep < N) :
    ((fromStep = N - 1 ∧ toStep = 0) →
      getMovesForTransition sm N fromStep toStep = (reverseInvert sm, 1 / 50)) ∧
    (fromStep < toStep →
      (getMovesForTransition sm N fromStep toStep).1 =
        jsSlice sm (ckpt sm.length N fromStep) (ckpt sm.length N toStep)) ∧
    (toStep < fromStep → ¬(fromStep = N - 1 ∧ toStep = 0) →
      (getMovesForTransition sm N fromStep toStep).1 =
        reverseInvert
          (jsSlice sm (ckpt sm.length N toStep) (ckpt sm.length N fromStep))) ∧
    (toStep = fromStep → ¬(fromStep = N - 1 ∧ toStep = 0) →
      (getMovesForTransition sm N fromStep toStep).1 = []) := by
  have hlen : sm.length ≠ 0 := by
    simpa using hsm
  refine ⟨fun h => gMFT_special sm N fromStep toStep hlen h,
    fun h => by rw [gMFT_forward sm N fromStep toStep hlen h],
    fun h hns => by rw [gMFT_backward sm N fromStep toStep hlen h hns],
    fun h hns => by rw [gMFT_same sm N fromStep toStep hlen h hns]⟩

/-- A demonstration scramble `[R, U, F, L]` used by the concrete witnesses. -/
def smDemo : List Move := [['R'], ['U'], ['F'], ['L']]

/-- C5 witness: the case split instantiated at the demo scramble, `N = 3`,
`fromStep = 2`, `toStep = 0`. -/
theorem getMovesForTransition_cases_witness :
    ((2 = 3 - 1 ∧ 0 = 0) →
      getMovesForTransition smDemo 3 2 0 = (reverseInvert smDemo, 1 / 50)) ∧
    (2 < 0 →
      (getMovesForTransition smDemo 3 2 0).1 =
        jsSlice smDemo (ckpt smDemo.length 3 2) (ckpt smDemo.length 3 0)) ∧
    (0 < 2 → ¬(2 = 3 - 1 ∧ 0 = 0) →
      (getMovesForTransition smDemo 3 2 0).1 =
        reverseInvert
          (jsSlice smDemo (ckpt smDemo.length 3 0) (ckpt smDemo.length 3 2))) ∧
    (0 = 2 → ¬(2 = 3 - 1 ∧ 0 = 0) →
      (getMovesForTransition smDemo 3 2 0).1 = []) :=
  getMovesForTransition_cases smDemo 3 2 0 (by decide) (by decide) (by decide)

lemma jsSlice_subset {α : Type} (l : List α) (a b : ℤ) :
    jsSlice l a b ⊆ l := by
  unfold jsSlice
  exact ((List.drop_sublist _ _).trans (List.take_sublist _ _)).subset

lemma jsSlice_zero_length {α : Type} (l : List α) :
    jsSlice l 0 (l.length : ℤ) = l := by
  show List.drop (min (0 : ℤ) (l.length : ℤ)).toNat
    (List.take (min (l.length : ℤ) (l.length : ℤ)).toNat l) = l
  have hmin0 : min (0 : ℤ) (l.length : ℤ) = 0 :=
    min_eq_left (by exact_mod_cast Nat.zero_le _)
  rw [hmin0, min_self, Int.toNat_natCast, List.take_length]
  rfl

/-- C3 counterexample: with `N = 2` milestones and the 4-move demo scramble,
`plan(0,1)` plays only the last 3 moves (checkpoint 0 was overwritten to
`max 0 (T-3) = 1`), but `plan(1,0)` is the special full reverse scramble, so
the round trip from solved does not return to the solved state. -/
theorem transition_roundtrip_fails_at_N2 :
    applyMoves (getMovesForTransition smDemo 2 1 0).1
      (applyMoves (getMovesForTransition smDemo 2 0 1).1 solvedCube)
      ≠ solvedCube := by
  decide

/-- C3 (amended to `N ≥ 3`): for in-range milestone indices `i ≤ j` over a
non-empty scramble of valid tokens, playing `plan(i,j).moves` from solved and
then `plan(j,i).moves` returns the permutation model to the solved state. -/
theorem transition_roundtrip (sm : List Move) (N i j : ℕ)
    (hv : ∀ m ∈ sm, ValidMove m) (hN : 3 ≤ N) (hT : 1 ≤ sm.length)
    (hij : i ≤ j) (hj : j < N) :
    applyMoves (getMovesForTransition sm N j i).1
      (applyMoves (getMovesForTransition sm N i j).1 solvedCube)
      = solvedCube := by
  have hlen : sm.length ≠ 0 := by omega
  by_cases heq : i = j
  · subst heq
    rw [gMFT_same sm N i i hlen rfl (by omega)]
    rfl
  · have hlt : i < j := lt_of_le_of_ne hij heq
    by_cases hsp : j = N - 1 ∧ i = 0
    · obtain ⟨hj1, hi0⟩ := hsp
      subst hj1
      subst hi0
      rw [gMFT_forward sm N 0 (N - 1) hlen hlt,
        gMFT_special sm N (N - 1) 0 hlen ⟨rfl, rfl⟩]
      have hc0 : ckpt sm.length N 0 = 0 := by
        rw [ckpt_spec sm.length N hT hN 0, if_neg (by omega),
          if_neg (by omega), if_neg (by omega)]
      have hcN : ckpt sm.length N (N - 1) = (sm.length : ℤ) := by
        rw [ckpt_spec sm.length N hT hN (N - 1), if_pos rfl]
      rw [hc0, hcN, jsSlice_zero_length]
      exact applyMoves_reverseInvert sm hv solvedCube
    · rw [gMFT_forward sm N i j hlen hlt,
        gMFT_backward sm N j i hlen hlt hsp]
      exact applyMoves_reverseInvert _
        (fun m hm => hv m (jsSlice_subset sm _ _ hm)) solvedCube

/-- C3 witness: the round trip instantiated at the demo scramble, `N = 3`,
`i = 0`, `j = 2`. -/
theorem transition_roundtrip_witness :
    applyMoves (getMovesForTransition smDemo 3 2 0).1
      (applyMoves (getMovesForTransition smDemo 3 0 2).1 solvedCube)
      = solvedCube :=
  transition_roundtrip smDemo 3 0 2 (by decide) (by norm_num) (by decide)
    (by norm_num) (by norm_num)

/-- `getMovesToReachStep` (lines 276-280): empty list when the scramble is
empty or the step is past the table, else `solutionMoves.slice(0, count)`. -/
def getMovesToReachStep (sm : List Move) (N targetStep : ℕ) : List Move :=
  if sm.length = 0 ∨ (moveCheckpoints sm.length N).length ≤ targetStep then []
  else jsSlice sm 0 (ckpt sm.length N targetStep)

/-- Result of the hard reset: the visual arrangement of the 27 cubies and the
permutation held by the logical cube instance. -/
structure ResetResult where
  visual : CubeState
  logical : CubeState
deriving DecidableEq

/-- `resetToStep` (lines 283-335).  The logical cube is replaced by a solved
instance and the cubies are restored to their initial transforms; then every
move of `reverseSolution ++ movesForStep` is executed through
`applyMove(move, 0)` — which advances the visual cube *and* calls
`logicalCube.current.move(move)` (line 204) — and finally the
`// Sync logical cube` block (lines 327-333) feeds the same two lists to the
logical cube a second time.  The logical state therefore receives the move
sequence twice while the visual state receives it once. -/
def resetToStep (sm : List Move) (N targetStep : ℕ) : ResetResult :=
  let movesForStep := getMovesToReachStep sm N targetStep
  let reverseSolution := reverseInvert sm
  let seq := reverseSolution ++ movesForStep
  { visual := applyMoves seq solvedCube
    logical := applyMoves seq (applyMoves seq solvedCube) }

/-- C1: evaluation at the failing input (scramble `[R]`, `N = 2` milestones,
milestone 0).  The visual cube lands exactly on the claimed checkpoint state
(reverse scramble + first `checkpoints[0]` solution moves applied once from
solved), but the logical cube has had that sequence applied twice, so the
logical permutation differs from the visual arrangement. -/
theorem resetToStep_desyncs_logical_cube :
    (resetToStep [['R']] 2 0).visual =
      applyMoves (reverseInvert [['R']] ++ getMovesToReachStep [['R']] 2 0)
        solvedCube ∧
    (resetToStep [['R']] 2 0).logical ≠ (resetToStep [['R']] 2 0).visual := by
  exact ⟨rfl, by decide⟩

/-- A queued transition: `{from, to, moves?}` (line 93 / 487-491). -/
structure Transition where
  fromStep : ℕ
  toStep : ℕ
  moves : Option (List Move)
deriving DecidableEq

/-- Outcome of one `handleStepChange` call: do nothing, start the jump
choreography towards `target` (queue cleared, abort flag raised), or run the
queue with the given contents. -/
inductive HSCOutcome where
  | noop
  | jump (target : ℕ)
  | run (queue : List Transition)
deriving DecidableEq

/-- Backward/forward stepping of the `// Normal Path Logic` block
(lines 498-518): ascending unit steps, the special last-to-first single
transition, or descending unit steps. -/
def normalPathTransitions (N lastQueued targetStep : ℕ) : List Transition :=
  if lastQueued < targetStep then
    (List.range' (lastQueued + 1) (targetStep - lastQueued)).map
      (fun s => ⟨s - 1, s, none⟩)
  else if targetStep < lastQueued then
    if lastQueued = N - 1 ∧ targetStep = 0 then [⟨lastQueued, 0, none⟩]
    else
      ((List.range' targetStep (lastQueued - targetStep)).reverse).map
        (fun s => ⟨s + 1, s, none⟩)
  else []

/-- `handleStepChange` (lines 436-522) as a pure decision function.  `solve`
is the permutation model's `computeSolvingMoves` capability (`cubejs`'s
`solve()`, external to the repository) and `live` is the current logical cube
state, so `solve live` is `logicalCube.current.solve()`.  The dynamic-solve
branch clears the queue and enqueues the single explicit-move transition; the
normal path appends step-by-step transitions to the existing queue. -/
def handleStepChange (N : ℕ) (solve : CubeState → List Move)
    (live : CubeState) (lastQueued targetStep : ℕ)
    (queue : List Transition) : HSCOutcome :=
  if targetStep = lastQueued then .noop
  else if lastQueued = N - 1 ∧ targetStep = N - 2 then .jump targetStep
  else if targetStep = N - 1 ∧ lastQueued ≠ targetStep - 1 then
    .run [⟨lastQueued, targetStep, some (solve live)⟩]
  else .run (queue ++ normalPathTransitions N lastQueued targetStep)

/-- C7 counterexample: leaving the final milestone 4 for the non-adjacent
milestone 1 (with `N = 5`) does *not* trigger a dynamic solve — the code
takes the normal backward path and enqueues three planner-derived transitions
with no explicit move lists, not one transition carrying solver output. -/
theorem leaving_final_no_dynamic_solve :
    handleStepChange 5 (fun _ => []) solvedCube 4 1 [] =
      .run [⟨4, 3, none⟩, ⟨3, 2, none⟩, ⟨2, 1, none⟩] ∧
    handleStepChange 5 (fun _ => []) solvedCube 4 1 []
      ≠ .run [⟨4, 1, some []⟩] := by
  exact ⟨by decide, by decide⟩

/-- C7 (amended): the dynamic solve happens exactly on *arrival* at the final
milestone from any milestone other than `N-2` (and other than `N-1` itself):
the queue is discarded and a single transition carrying the solver's output
on the current live logical state is enqueued.  (Leaving the final milestone
never dynamic-solves; see the counterexample.) -/
theorem dynamic_solve_on_final_arrival (N : ℕ) (solve : CubeState → List Move)
    (live : CubeState) (lastQueued : ℕ) (queue : List Transition)
    (hN : 2 ≤ N) (h1 : lastQueued ≠ N - 1) (h2 : lastQueued ≠ N - 2) :
    handleStepChange N solve live lastQueued (N - 1) queue =
      .run [⟨lastQueued, N - 1, some (solve live)⟩] := by
  unfold handleStepChange
  rw [if_neg (by omega), if_neg (by omega : ¬(lastQueued = N - 1 ∧ N - 1 = N - 2)),
    if_pos ⟨rfl, by omega⟩]

/-- C7 witness: arriving at milestone 4 from milestone 0 (`N = 5`) with a
pending transition in the queue discards it and enqueues the single dynamic
solve transition. -/
theorem dynamic_solve_on_final_arrival_witness :
    handleStepChange 5 (fun _ => [['R']]) solvedCube 0 (5 - 1)
      [⟨0, 1, none⟩] = .run [⟨0, 5 - 1, some [['R']]⟩] :=
  dynamic_solve_on_final_arrival 5 (fun _ => [['R']]) solvedCube 0
    [⟨0, 1, none⟩] (by norm_num) (by norm_num) (by norm_num)

/-- Move-list resolution of `processQueue` (lines 383-394): a transition's
explicit `moves` win at duration 0.25, otherwise the planner decides. -/
def resolveTransition (sm : List Move) (N : ℕ) (t : Transition) :
    List Move × ℚ :=
  match t.moves with
  | some ms => (ms, 1 / 4)
  | none => getMovesForTransition sm N t.fromStep t.toStep

/-- Inner move loop of `processQueue` (lines 396-399) with a global move
counter: the abort flag is consulted before each move starts.  The flag is
modelled as "set from boundary `abortAt` on" — the cancellation that raised it
happened while move `abortAt - 1` was in flight, and a cancellation never
un-sets it within a pass (the flag is only cleared when a new pass starts).
Returns the moves actually animated and the advanced counter. -/
def runMoves (abortAt : ℕ) : List Move → ℕ → List Move × ℕ
  | [], n => ([], n)
  | m :: ms, n =>
    if abortAt ≤ n then ([], n)
    else
      (m :: (runMoves abortAt ms (n + 1)).1, (runMoves abortAt ms (n + 1)).2)

/-- Outer `while` loop of `processQueue` (lines 378-402): the abort flag is
also consulted before shifting each transition. -/
def runQueue (sm : List Move) (N abortAt : ℕ) :
    List Transition → ℕ → List Move × ℕ
  | [], n => ([], n)
  | t :: ts, n =>
    if abortAt ≤ n then ([], n)
    else
      ((runMoves abortAt (resolveTransition sm N t).1 n).1 ++
          (runQueue sm N abortAt ts
            (runMoves abortAt (resolveTransition sm N t).1 n).2).1,
        (runQueue sm N abortAt ts
          (runMoves abortAt (resolveTransition sm N t).1 n).2).2)

/-- One full `processQueue` pass: the moves it animates and the processing
flag, which the pass unconditionally clears on exit (line 404). -/
def processQueuePass (sm : List Move) (N abortAt : ℕ)
    (queue : List Transition) : List Move × Bool :=
  ((runQueue sm N abortAt queue 0).1, false)

/-- All moves a queue plays when it is never cancelled. -/
def flatMoves (sm : List Move) (N : ℕ) (queue : List Transition) :
    List Move :=
  (queue.map (fun t => (resolveTransition sm N t).1)).flatten

lemma runMoves_eq (abortAt : ℕ) :
    ∀ (ms : List Move) (n : ℕ),
      runMoves abortAt ms n =
        (ms.take (abortAt - n), n + (ms.take (abortAt - n)).length) := by
  intro ms
  induction ms with
  | nil => intro n; simp [runMoves]
  | cons m ms ih =>
      intro n
      unfold runMoves
      by_cases h : abortAt ≤ n
      · rw [if_pos h]
        have h0 : abortAt - n = 0 := by omega
        simp [h0]
      · rw [if_neg h, ih (n + 1)]
        have hk : abortAt - n = (abortAt - (n + 1)) + 1 := by omega
        rw [hk, List.take_succ_cons]
        refine Prod.ext rfl ?_
        simp only [List.length_cons]
        omega

lemma runQueue_eq (sm : List Move) (N abortAt : ℕ) :
    ∀ (q : List Transition) (n : ℕ),
      runQueue sm N abortAt q n =
        ((flatMoves sm N q).take (abortAt - n),
          n + ((flatMoves sm N q).take (abortAt - n)).length) := by
  intro q
  induction q with
  | nil => intro n; simp [runQueue, flatMoves]
  | cons t ts ih =>
      intro n
      have hflat : flatMoves sm N (t :: ts) =
          (resolveTransition sm N t).1 ++ flatMoves sm N ts := by
        simp [flatMoves]
      unfold runQueue
      by_cases h : abortAt ≤ n
      · rw [if_pos h]
        have h0 : abortAt - n = 0 := by omega
        simp [h0]
      · rw [if_neg h, runMoves_eq, ih, hflat,
          List.take_append_eq_append_take]
        have hlen : ∀ (l : List Move) (k : ℕ), (l.take k).length = min l.length k := by
          intro l k
          rw [List.length_take]
          omega
        refine Prod.ext ?_ ?_
        · simp only []
          congr 1
          rw [hlen]
          congr 1
          omega
        · simp only [List.length_append]
          rw [hlen, hlen, hlen]
          omega

/-- C6: cancellation is observed only at move boundaries.  In a pass over
`q1` cancelled at boundary `b` (the flag was raised, and the queue emptied,
while move `b-1` was in flight), exactly the first `b` scheduled moves run —
the in-flight move completes and no further move of any transition starts —
and the processing flag is cleared when the pass exits.  A subsequent pass
over a freshly enqueued `q2` that is never cancelled plays exactly `q2`'s own
moves, with no leftovers from the cancelled transitions (they were removed
with the queue and the halted pass never reads them). -/
theorem queue_cancellation_boundary (sm : List Move) (N : ℕ)
    (q1 q2 : List Transition) (b b2 : ℕ)
    (h2 : (flatMoves sm N q2).length ≤ b2) :
    (processQueuePass sm N b q1).1 = (flatMoves sm N q1).take b ∧
    (processQueuePass sm N b q1).2 = false ∧
    (processQueuePass sm N b2 q2).1 = flatMoves sm N q2 := by
  refine ⟨?_, rfl, ?_⟩
  · unfold processQueuePass
    rw [runQueue_eq]
    norm_num
  · unfold processQueuePass
    rw [runQueue_eq]
    simp only [Nat.sub_zero]
    exact List.take_of_length_le h2

/-- C6 witness: a two-transition queue over the demo scramble cancelled at
boundary 1 plays exactly one move; the fresh queue afterwards plays all of
its own moves. -/
theorem queue_cancellation_boundary_witness :
    (flatMoves smDemo 3 [⟨2, 1, none⟩]).length ≤ 10 ∧
    ((processQueuePass smDemo 3 1 [⟨0, 1, none⟩, ⟨1, 2, none⟩]).1 =
        (flatMoves smDemo 3 [⟨0, 1, none⟩, ⟨1, 2, none⟩]).take 1 ∧
      (processQueuePass smDemo 3 1 [⟨0, 1, none⟩, ⟨1, 2, none⟩]).2 = false ∧
      (processQueuePass smDemo 3 10 [⟨2, 1, none⟩]).1 =
        flatMoves smDemo 3 [⟨2, 1, none⟩]) :=
  ⟨by decide,
    queue_cancellation_boundary smDemo 3 [⟨0, 1, none⟩, ⟨1, 2, none⟩]
      [⟨2, 1, none⟩] 1 10 (by decide)⟩

/-- `JUMP_DURATION = 600` milliseconds (line 119). -/
def JUMP_DURATION : ℚ := 600

/-- Whether a token is a double turn (`move.includes("2")`). -/
def isDoubleMove (m : Move) : Bool := m.contains '2'

/-- Total wall-clock animation time of one `applyMove(m, d)` in milliseconds:
a double turn awaits two slice rotations of `d` seconds each, any other token
awaits one (lines 224-229). -/
def totalAnimMs (m : Move) (d : ℚ) : ℚ :=
  (if isDoubleMove m then 2 * d else d) * 1000

/-- C9 counterexample: a double turn at 0.3 s per rotation animates for
exactly 600 ms, so `JUMP_DURATION` does *not* strictly exceed the time such a
move can still need when the queue is aborted. -/
theorem jump_duration_not_exceeding_double_turn :
    ¬(totalAnimMs ['U', '2'] (3 / 10) < JUMP_DURATION) := by
  unfold totalAnimMs isDoubleMove JUMP_DURATION
  norm_num

lemma gMFT_duration_of_ne (sm : List Move) (N f t : ℕ)
    (hne : (getMovesForTransition sm N f t).1 ≠ []) :
    (getMovesForTransition sm N f t).2 = 1 / 50 ∨
    (getMovesForTransition sm N f t).2 = 1 / 4 := by
  unfold getMovesForTransition at hne ⊢
  split_ifs at hne ⊢ <;> simp_all

/-- C9 (amended): the queue scheduler only ever assigns 0.25 s (explicit-move
transitions, forward and backward slices) or 0.02 s (the full reverse) to a
transition whose move list is non-empty, and at those durations every token —
double turns included — animates for strictly less than `JUMP_DURATION`
(at most 500 ms against 600 ms), so the hard reset scheduled at the end of
the jump cannot fire while a queue-scheduled rotation is still animating.
(At the 0.3 s default — which the queue only pairs with empty move lists —
a double turn would take exactly 600 ms; see the counterexample.) -/
theorem queue_moves_fit_in_jump (sm : List Move) (N : ℕ) (t : Transition)
    (m : Move) (hne : (resolveTransition sm N t).1 ≠ []) :
    totalAnimMs m (resolveTransition sm N t).2 < JUMP_DURATION := by
  have hd : (resolveTransition sm N t).2 = 1 / 4 ∨
      (resolveTransition sm N t).2 = 1 / 50 := by
    cases htm : t.moves with
    | some ms =>
        left
        simp [resolveTransition, htm]
    | none =>
        have hne' : (getMovesForTransition sm N t.fromStep t.toStep).1 ≠ [] := by
          simpa [resolveTransition, htm] using hne
        rcases gMFT_duration_of_ne sm N t.fromStep t.toStep hne' with h | h
        · right
          simpa [resolveTransition, htm] using h
        · left
          simpa [resolveTransition, htm] using h
  unfold totalAnimMs JUMP_DURATION
  rcases hd with h | h <;> rw [h] <;> split <;> norm_num

/-- C9 witness: a double turn at the duration the queue assigns to the
forward transition `0 → 1` over the demo scramble finishes within the jump. -/
theorem queue_moves_fit_in_jump_witness :
    totalAnimMs ['U', '2'] (resolveTransition smDemo 3 ⟨0, 1, none⟩).2 <
      JUMP_DURATION :=
  queue_moves_fit_in_jump smDemo 3 ⟨0, 1, none⟩ ['U', '2'] (by decide)

/-- A cubie's raw transform as JS numbers: position coordinates and Euler
rotation angles.  The double constant `Math.PI / 2` is abstracted as a
parameter `hp` wherever the quarter turn appears. -/
structure CubieF where
  px : ℚ
  py : ℚ
  pz : ℚ
  rx : ℚ
  ry : ℚ
  rz : ℚ
deriving DecidableEq

/-- The snap step applied to each re-attached cubie (lines 153-161 and
186-192): `position = Math.round(position)` per axis and
`rotation = Math.round(rotation / (PI/2)) * (PI/2)` per axis. -/
def snapCubie (hp : ℚ) (c : CubieF) : CubieF :=
  ⟨(jsRound c.px : ℚ), (jsRound c.py : ℚ), (jsRound c.pz : ℚ),
    (jsRound (c.rx / hp) : ℚ) * hp, (jsRound (c.ry / hp) : ℚ) * hp,
    (jsRound (c.rz / hp) : ℚ) * hp⟩

/-- Duration-0 path of `rotateSlice` (lines 150-165): the selected cubies are
rotated, re-attached and snapped before the function returns. -/
def rotateSliceInstantFinish (hp : ℚ) (selected : List CubieF) :
    List CubieF :=
  selected.map (snapCubie hp)

/-- End of the animated path of `rotateSlice` (lines 181-195): whatever
drifted transforms the eased frames left behind, the selected cubies are
snapped, and only afterwards is the completion promise resolved — the state
visible at resolution is the snapped one. -/
def rotateSliceAnimatedResolve (hp : ℚ) (drifted : List CubieF) :
    List CubieF :=
  drifted.map (snapCubie hp)

/-- The tail of the animated path in program order (lines 182-195): settle
the pivot on the exact target angle, snap every selected cubie, resolve. -/
inductive RotPhase where
  | settle
  | snap
  | resolve
deriving DecidableEq, BEq

/-- Program order of the animated completion handler. -/
def animatedFinishPhases : List RotPhase := [.settle, .snap, .resolve]

/-- A transform is on the grid: integer positions, rotations that are exact
integer multiples of the quarter turn `hp`. -/
def gridAligned (hp : ℚ) (c : CubieF) : Prop :=
  (∃ a : ℤ, c.px = a) ∧ (∃ a : ℤ, c.py = a) ∧ (∃ a : ℤ, c.pz = a) ∧
  (∃ k : ℤ, c.rx = k * hp) ∧ (∃ k : ℤ, c.ry = k * hp) ∧
  (∃ k : ℤ, c.rz = k * hp)

/-- C8: after a slice rotation by either path — instant or animated, from any
pre-snap transforms, however drifted — every selected piece has exact integer
position coordinates and rotation angles that are exact multiples of the
quarter turn, and in the animated path the snap phase precedes promise
resolution. -/
theorem rotation_snap_grid (hp : ℚ) (pre drifted : List CubieF) :
    (∀ c ∈ rotateSliceInstantFinish hp pre, gridAligned hp c) ∧
    (∀ c ∈ rotateSliceAnimatedResolve hp drifted, gridAligned hp c) ∧
    animatedFinishPhases.indexOf RotPhase.snap <
      animatedFinishPhases.indexOf RotPhase.resolve := by
  refine ⟨?_, ?_, by decide⟩ <;>
    · intro c hc
      rcases List.mem_map.mp hc with ⟨c0, _, rfl⟩
      exact ⟨⟨_, rfl⟩, ⟨_, rfl⟩, ⟨_, rfl⟩, ⟨_, rfl⟩, ⟨_, rfl⟩, ⟨_, rfl⟩⟩

/-- C8 witness: the grid property read off a concrete drifted cubie pushed
through the snap, at quarter turn `hp = 2`. -/
theorem rotation_snap_grid_witness :
    gridAligned 2 (snapCubie 2 ⟨1 / 3, -5 / 2, 0, 3, -7, 1 / 2⟩) :=
  (rotation_snap_grid 2 [⟨1 / 3, -5 / 2, 0, 3, -7, 1 / 2⟩] []).1
    (snapCubie 2 ⟨1 / 3, -5 / 2, 0, 3, -7, 1 / 2⟩)
    (by simp [rotateSliceInstantFinish])

/-- One slice-rotation request: axis, layer, direction and duration. -/
structure RotCall where
  axis : Axis
  idx : ℤ
  dir : ℤ
  dur : ℚ
deriving DecidableEq

/-- Observable effects of the move executor. -/
inductive CubeEvent where
  | logicalUpdate (m : Move)
  | rotate (c : RotCall)
deriving DecidableEq

/-- The slice-rotation request `applyMove` derives from a token (lines
206-223): face parameters from `move[0]`, direction negated for a prime. -/
def rotCallOf (m : Move) (d : ℚ) : RotCall :=
  ⟨(faceParams (m.headD 'A')).1, (faceParams (m.headD 'A')).2.1,
    if m.contains primeChar then -(faceParams (m.headD 'A')).2.2
    else (faceParams (m.headD 'A')).2.2, d⟩

/-- The event order of `applyMove(move, duration)` (lines 202-230): the
logical cube update first (line 204), then one slice rotation — or two
identical ones for a double turn — each over the full `duration`. -/
def applyMoveEvents (m : Move) (d : ℚ) : List CubeEvent :=
  if m.contains '2' then
    [.logicalUpdate m, .rotate (rotCallOf m d), .rotate (rotCallOf m d)]
  else [.logicalUpdate m, .rotate (rotCallOf m d)]

/-- Total animated time of the rotations in an event list. -/
def eventsDuration (es : List CubeEvent) : ℚ :=
  (es.map (fun e =>
    match e with
    | .logicalUpdate _ => 0
    | .rotate c => c.dur)).sum

/-- C10: a double-turn token performs exactly two consecutive slice rotations
with the same axis, layer and direction, each over the full duration `d`, for
a total animation time of `2 * d`; the logical cube is updated exactly once
per token, before the first rotation begins. -/
theorem applyMove_double_turn (m : Move) (hv : ValidMove m)
    (hdb : m.contains '2' = true) (d : ℚ) :
    (∃ c : RotCall, c.dur = d ∧
      applyMoveEvents m d =
        [.logicalUpdate m, .rotate c, .rotate c]) ∧
    eventsDuration (applyMoveEvents m d) = 2 * d := by
  have hev : applyMoveEvents m d =
      [.logicalUpdate m, .rotate (rotCallOf m d), .rotate (rotCallOf m d)] := by
    unfold applyMoveEvents
    rw [if_pos hdb]
  refine ⟨⟨rotCallOf m d, rfl, hev⟩, ?_⟩
  rw [hev]
  unfold eventsDuration
  simp [rotCallOf]
  ring

/-- C10 witness: the double-turn behaviour at token `U2`, duration 0.25 s. -/
theorem applyMove_double_turn_witness :
    (∃ c : RotCall, c.dur = 1 / 4 ∧
      applyMoveEvents ['U', '2'] (1 / 4) =
        [.logicalUpdate ['U', '2'], .rotate c, .rotate c]) ∧
    eventsDuration (applyMoveEvents ['U', '2'] (1 / 4)) = 2 * (1 / 4) :=
  applyMove_double_turn ['U', '2'] (by decide) (by decide) (1 / 4)
